import Mathlib

/-
Verification development for betterwalk (src/betterwalk.py).

The filesystem is modelled as a finite tree of nodes.  Each node records the
information the platform's native enumeration facility reports about it
(a POSIX d_type, a Win32 attribute word, a symbolic link to a directory with
its target inlined, or an entry whose type the native response leaves
unresolved).  Paths are lists of name segments, so os.path.join is list
append.  Machine integers are Nat (all mode arithmetic stays far below any
overflow boundary).  Raised OSError values are an explicit error type, and
generator functions that can raise are embedded as Except-valued functions.
-/

namespace BetterWalk

/-! Constants from Python's stat module and from src/betterwalk.py. -/

def DT_UNKNOWN : Nat := 0
def DT_DIR : Nat := 4
def DT_REG : Nat := 8
def DT_LNK : Nat := 10

def S_IFDIR : Nat := 0o040000
def S_IFREG : Nat := 0o100000
def S_IFLNK : Nat := 0o120000
def S_IFMT_MASK : Nat := 0o170000

/-- Python stat.S_ISDIR: the format bits of the mode equal S_IFDIR. -/
def S_ISDIR (mode : Nat) : Bool := mode &&& S_IFMT_MASK == S_IFDIR

/-- Python stat.S_ISLNK: the format bits of the mode equal S_IFLNK. -/
def S_ISLNK (mode : Nat) : Bool := mode &&& S_IFMT_MASK == S_IFLNK

def FILE_ATTRIBUTE_READONLY : Nat := 1
def FILE_ATTRIBUTE_DIRECTORY : Nat := 16
def FILE_ATTRIBUTE_REPARSE_POINT : Nat := 1024

/-- attributes_to_mode from src/betterwalk.py lines 77-90: convert Win32
dwFileAttributes to st_mode, ORing the flag for each attribute bit that is
set (a Python `if attributes & FLAG:` test is a test for a nonzero AND). -/
def attributes_to_mode (attributes : Nat) : Nat :=
  let mode := 0
  let mode := if attributes &&& FILE_ATTRIBUTE_DIRECTORY ≠ 0
              then mode ||| (S_IFDIR ||| 0o111) else mode ||| S_IFREG
  let mode := if attributes &&& FILE_ATTRIBUTE_READONLY ≠ 0
              then mode ||| 0o444 else mode ||| 0o666
  let mode := if attributes &&& FILE_ATTRIBUTE_REPARSE_POINT ≠ 0
              then mode ||| S_IFLNK else mode
  mode

/-- type_to_stat from src/betterwalk.py lines 185-192: the st_mode the POSIX
enumerator reports for an entry with the given dirent d_type.  Every d_type
other than DT_DIR (including DT_LNK and DT_UNKNOWN) becomes S_IFREG. -/
def type_to_stat (d_type : Nat) : Nat :=
  if d_type = DT_DIR then S_IFDIR ||| 0o111 else S_IFREG

/-! The filesystem model. -/

/-- What the platform knows about one filesystem node.
`file` and `dir` carry the d_type the native POSIX listing reports for them.
`linkDir` is a symbolic link to a directory, with the target's children
inlined (cycle-free); its d_type is DT_LNK.  `unknownEntry` is an entry whose
type the native response leaves unresolved (st_mode None in the words of
iterdir_stat's docstring, src lines 229-231); `isDir` is its real type and
`statOk` tells whether an os.stat on it succeeds.  `winEntry` is a node on a
Win32 volume carrying its dwFileAttributes word. -/
inductive FSMeta where
  | file (dtype : Nat)
  | dir (dtype : Nat) (readable : Bool)
  | linkDir
  | unknownEntry (isDir : Bool) (statOk : Bool)
  | winEntry (attributes : Nat)
deriving DecidableEq

/-- A filesystem node: a name, the platform-visible metadata, and the
children listed when the node is enumerated as a directory. -/
inductive FSNode where
  | mk (name : String) (meta : FSMeta) (children : List FSNode)

def FSNode.name : FSNode → String
  | .mk n _ _ => n

def FSNode.meta : FSNode → FSMeta
  | .mk _ m _ => m

def FSNode.children : FSNode → List FSNode
  | .mk _ _ cs => cs

/-- A raised Python exception.  `osError` is a raised OSError; `errnoAttr`
is the errno attribute of the exception object: `OSError('message')`, as
raised by the POSIX iterdir_stat, leaves it unset (none), while errors
produced by os.stat carry a real errno.  `nameError` is a raised NameError:
a reference to an undefined name — it is not an OSError, so walk's
`except OSError` does not catch it. -/
inductive PyErr where
  | osError (errnoAttr : Option Nat) (msg : String)
  | nameError (msg : String)
deriving DecidableEq

/-- The d_type the POSIX readdir loop observes for a node. -/
def dtypeOf : FSMeta → Nat
  | .file d => d
  | .dir d _ => d
  | .linkDir => DT_LNK
  | .unknownEntry _ _ => DT_UNKNOWN
  | .winEntry _ => DT_REG

/-- Whether opendir on this node fails, and with which error
(src/betterwalk.py line 196-198 raises OSError('TODO: opendir error: {errno}')
with the errno only interpolated into the message).  opendir on a
non-directory fails with ENOTDIR (20), on an unreadable directory with
EACCES (13); a symlink to a directory is followed and opens its target. -/
def openError (n : FSNode) : Option PyErr :=
  match n.meta with
  | .file _ => some (.osError none "TODO: opendir error: 20")
  | .dir _ readable =>
      if readable then none else some (.osError none "TODO: opendir error: 13")
  | .linkDir => none
  | .unknownEntry isDir _ =>
      if isDir then none else some (.osError none "TODO: opendir error: 20")
  | .winEntry a =>
      if a &&& FILE_ATTRIBUTE_DIRECTORY ≠ 0 then none
      else some (.osError none "TODO: opendir error: 20")

/-- The per-entry st_mode conversion the POSIX readdir loop was written to
apply: `type_to_stat` of the entry's d_type (src lines 185-192, 209), lifted
to nodes.  Note that the frozen loop itself never reaches this conversion —
it raises NameError first (see `iterdir_stat_posix`) — so this function is a
representative per-entry report used only in enumerator-generic results
(the ordering of C2, which holds for every report function, and the resource
traces of C4, whose try/finally release runs on the NameError exit as on any
other). -/
def posix_d_stat (n : FSNode) : Option Nat :=
  some (type_to_stat (dtypeOf n.meta))

/-- os.stat on a node: follows symbolic links and reparse points (a Win32
entry whose attribute word carries the directory bit stats as a directory),
returns a full mode, and can fail (modelled only for `unknownEntry` nodes
with `statOk = false`, e.g. an entry that vanished between listing and
stat). -/
def os_stat (n : FSNode) : Except PyErr Nat :=
  match n.meta with
  | .file _ => .ok (S_IFREG ||| 0o644)
  | .dir _ _ => .ok (S_IFDIR ||| 0o755)
  | .linkDir => .ok (S_IFDIR ||| 0o755)
  | .unknownEntry isDir statOk =>
      if statOk then .ok (if isDir then S_IFDIR ||| 0o755 else S_IFREG ||| 0o644)
      else .error (.osError (some 2) "os.stat failed")
  | .winEntry a =>
      if a &&& FILE_ATTRIBUTE_DIRECTORY ≠ 0 then .ok (S_IFDIR ||| 0o755)
      else .ok (S_IFREG ||| 0o644)

/-- Per-entry st_mode of an enumerator honouring iterdir_stat's documented
contract (src lines 224-234): entries whose type the native response does not
resolve are reported with st_mode None.  walk's own fallback branch
(src line 265) exists to consume exactly this shape. -/
def doc_d_stat (n : FSNode) : Option Nat :=
  match n.meta with
  | .unknownEntry _ _ => none
  | _ => posix_d_stat n

/-- Per-entry st_mode reported by the Win32 iterdir_stat (src lines 113-147):
find_data_to_stat applies attributes_to_mode to the entry's attribute word. -/
def win32_d_stat (n : FSNode) : Option Nat :=
  match n.meta with
  | .winEntry a => some (attributes_to_mode a)
  | .dir _ _ => some (attributes_to_mode FILE_ATTRIBUTE_DIRECTORY)
  | .linkDir =>
      some (attributes_to_mode (FILE_ATTRIBUTE_DIRECTORY ||| FILE_ATTRIBUTE_REPARSE_POINT))
  | _ => some (attributes_to_mode 0)

/-- Per-entry st_mode of the portable fallback iterdir_stat
(src lines 218-221): one os.stat per listed name (follows symlinks).  This
per-entry view is total, and faithful, on nodes whose os.stat succeeds — the
only nodes that appear in the plain trees every theorem using it assumes.
(When a per-name stat fails, the real portable enumerator raises inside
`list(iterdir_stat(top))` and walk's except catches it — a path outside this
per-entry function, whose unused `none` fallback would instead reach walk's
uncaught fallback stat; no theorem below exercises that corner.) -/
def portable_d_stat (n : FSNode) : Option Nat :=
  match os_stat n with
  | .ok m => some m
  | .error _ => none

/-- The POSIX iterdir_stat as frozen in the source (src lines 194-213),
applied to the result of resolving a path: `none` when the path does not
exist (opendir returns NULL with errno ENOENT = 2).  The open-failure paths
raise the bare OSError of line 198.  When opendir succeeds, the loop body
references the undefined names readdir and p incorrectly (line 175 binds
`readdir`, line 203 calls `readdir_r`; line 209 reads `p.contents`; line 207
takes `.contents` of a ctypes Structure), so the generator raises NameError
at its first step, before yielding any entry — it can never produce a
listing. -/
def iterdir_stat_posix : Option FSNode → Except PyErr (List (String × Option Nat))
  | none => .error (.osError none "TODO: opendir error: 2")
  | some n =>
      match openError n with
      | some e => .error e
      | none => .error (.nameError "NameError: readdir_r is not defined")

/-! The tree walker (src/betterwalk.py lines 246-286), parametric in the
per-entry reported stat `ds` of the platform enumerator in use. -/

/-- Resolve the st_mode walk uses for one entry (src lines 264-266): take the
enumerator-reported mode; when it is None, issue the single fallback os.stat.
That fallback sits outside walk's try/except, so its failure propagates. -/
def resolveSt (ds : FSNode → Option Nat) (c : FSNode) : Except PyErr Nat :=
  match ds c with
  | some m => .ok m
  | none => os_stat c

/-- The partition loop of walk (src lines 260-271): split the drained listing
into (dirs with their resolved modes, nondirs), preserving listing order.
The first failing fallback stat aborts the whole partition with its error. -/
def classifyList (ds : FSNode → Option Nat) :
    List FSNode → Except PyErr (List (String × Nat) × List String)
  | [] => .ok ([], [])
  | c :: rest =>
    match resolveSt ds c with
    | .error e => .error e
    | .ok m =>
      match classifyList ds rest with
      | .error e => .error e
      | .ok (dirs, nondirs) =>
        if S_ISDIR m then .ok ((c.name, m) :: dirs, nondirs)
        else .ok (dirs, c.name :: nondirs)

/-- The output of a walk: the WalkRecords yielded, in order, as
(directory-path, subdirectory-names, file-names), plus the log of
(path, error) pairs passed to the onerror callback when one is supplied. -/
structure WalkOut where
  records : List (List String × List String × List String)
  errs : List (List String × PyErr)
deriving DecidableEq

mutual
/-- walk from src/betterwalk.py lines 246-286.  `ds` is the platform
enumerator's per-entry reported stat; `onerror` tells whether an onerror
callback was supplied (invocations are logged in `errs`).  A failed directory
open is caught (src lines 253-258): it contributes no records, is reported to
onerror when present, and the walk goes on.  An error escaping the partition
step (the fallback os.stat, outside the try) or the recursion propagates as
`.error`, aborting the walk — records already yielded are dropped by this
embedding, which only matters for claims about what a completed walk yields. -/
def walk (ds : FSNode → Option Nat) (topdown followlinks onerror : Bool)
    (top : List String) : FSNode → Except PyErr WalkOut
  | .mk nm m cs =>
    match openError (.mk nm m cs) with
    | some e => .ok ⟨[], if onerror then [(top, e)] else []⟩
    | none =>
      match classifyList ds cs with
      | .error e => .error e
      | .ok (dirs, nondirs) =>
        match walkList ds topdown followlinks onerror top cs with
        | .error e => .error e
        | .ok sub =>
          if topdown then
            .ok ⟨(top, dirs.map Prod.fst, nondirs) :: sub.records, sub.errs⟩
          else
            .ok ⟨sub.records ++ [(top, dirs.map Prod.fst, nondirs)], sub.errs⟩

/-- The recursion loop of walk (src lines 277-282): for each entry classified
as a directory, recurse when `followlinks or not S_ISLNK(st_mode)`, splicing
the recursive records and onerror invocations in order.  Iterating the
children and re-deriving each entry's (pure) classification is equivalent to
iterating the zip of the dirs and dir_stats lists the partition built. -/
def walkList (ds : FSNode → Option Nat) (topdown followlinks onerror : Bool)
    (top : List String) : List FSNode → Except PyErr WalkOut
  | [] => .ok ⟨[], []⟩
  | c :: rest =>
    let step : Except PyErr WalkOut :=
      match resolveSt ds c with
      | .error e => .error e
      | .ok m =>
        if S_ISDIR m then
          if followlinks || !(S_ISLNK m) then
            walk ds topdown followlinks onerror (top ++ [c.name]) c
          else .ok ⟨[], []⟩
        else .ok ⟨[], []⟩
    match step with
    | .error e => .error e
    | .ok o1 =>
      match walkList ds topdown followlinks onerror top rest with
      | .error e => .error e
      | .ok o2 => .ok ⟨o1.records ++ o2.records, o1.errs ++ o2.errs⟩
end

/-- The file-name components of all records of a walk result (empty when the
walk raised). -/
def nondirNames (r : Except PyErr WalkOut) : List String :=
  match r with
  | .ok o => (o.records.map fun t => t.2.2).flatten
  | .error _ => []

/-- The subdirectory-name components of all records of a walk result. -/
def dirNames (r : Except PyErr WalkOut) : List String :=
  match r with
  | .ok o => (o.records.map fun t => t.2.1).flatten
  | .error _ => []

/-! Reference notions used to state the claims. -/

/-- Whether a node really is a directory (not a symlink to one). -/
def isDirNode (c : FSNode) : Bool :=
  match c.meta with
  | .dir _ _ => true
  | _ => false

/-- Names of the directory children of a listing, in listing order. -/
def dirChildNames (cs : List FSNode) : List String :=
  (cs.filter isDirNode).map FSNode.name

/-- Names of the non-directory children of a listing, in listing order. -/
def fileChildNames (cs : List FSNode) : List String :=
  (cs.filter fun c => !isDirNode c).map FSNode.name

mutual
/-- A plain tree: no symlinks, no Win32 nodes, no unresolved entries, and the
native d_type correctly distinguishes directories from non-directories. -/
def plain : FSNode → Bool
  | .mk _ m cs =>
    match m with
    | .file d => d != DT_DIR
    | .dir d _ => (d == DT_DIR) && plainList cs
    | _ => false

def plainList : List FSNode → Bool
  | [] => true
  | c :: rest => plain c && plainList rest
end

mutual
/-- The records a traversal of a plain tree yields for the subtree at `top`:
one record per directory reachable through readable directories, each listing
its directory children and non-directory children in listing order; when
`topdown` a directory's record precedes its subtrees' records, otherwise it
follows them. -/
def expRecords (topdown : Bool) (top : List String) :
    FSNode → List (List String × List String × List String)
  | .mk _ m cs =>
    match m with
    | .dir _ true =>
        if topdown then
          (top, dirChildNames cs, fileChildNames cs) :: expRecordsList topdown top cs
        else
          expRecordsList topdown top cs ++ [(top, dirChildNames cs, fileChildNames cs)]
    | _ => []

def expRecordsList (topdown : Bool) (top : List String) :
    List FSNode → List (List String × List String × List String)
  | [] => []
  | c :: rest => expRecords topdown (top ++ [c.name]) c ++ expRecordsList topdown top rest
end

mutual
/-- The (path, error) pairs an onerror callback receives on a plain tree: one
EACCES failure per unreadable directory reached through readable ones. -/
def expErrs (top : List String) : FSNode → List (List String × PyErr)
  | .mk _ m cs =>
    match m with
    | .dir _ true => expErrsList top cs
    | .dir _ false => [(top, .osError none "TODO: opendir error: 13")]
    | _ => []

def expErrsList (top : List String) : List FSNode → List (List String × PyErr)
  | [] => []
  | c :: rest => expErrs (top ++ [c.name]) c ++ expErrsList top rest
end

/-- No two children of this listing share a name. -/
def nodupNames : List FSNode → Bool
  | [] => true
  | c :: rest => !((rest.map FSNode.name).contains c.name) && nodupNames rest

mutual
/-- A well-formed tree: sibling names are distinct at every level, as they
are in a real directory tree. -/
def wfNode : FSNode → Bool
  | .mk _ _ cs => nodupNames cs && wfList cs

def wfList : List FSNode → Bool
  | [] => true
  | c :: rest => wfNode c && wfList rest
end

/-- `Pre p q`: the segment list p is a prefix of q, i.e. the path p is q or
an ancestor of q. -/
def Pre {α : Type} (p q : List α) : Prop := ∃ r, q = p ++ r

/-- `StrictAnc p q`: the path p is a strict ancestor of the path q. -/
def StrictAnc (p q : List String) : Prop := Pre p q ∧ p ≠ q

/-- The order contract of one walk: when `topdown`, no record may be followed
by a record for an ancestor directory; when bottom-up, no record may be
followed by a record for a descendant directory. -/
def ancOrdered (topdown : Bool) (a b : List String × List String × List String) : Prop :=
  if topdown then ¬ StrictAnc b.1 a.1 else ¬ StrictAnc a.1 b.1

/-! Resource instrumentation.  The native listing session (the DIR pointer of
opendir / the FindFirstFile handle) is the one scoped resource; the traces
below record its acquisition and release together with the generator's
suspension points, following the control flow of the source. -/

/-- One event of an instrumented run: acquiring the native listing resource,
releasing it, yielding one directory entry to the consumer, or yielding one
WalkRecord (a suspension point of walk). -/
inductive REvent where
  | acquire
  | release
  | yieldEntry
  | yieldRec
deriving DecidableEq

def countAcq (tr : List REvent) : Nat := tr.count .acquire

def countRel (tr : List REvent) : Nat := tr.count .release

/-- How one enumeration run ends: the consumer drains it, the consumer
abandons it after `k` entries (the generator is then finalized, running the
try/finally), or the native advance call fails after `j` entries (the raised
error also runs the finally block). -/
inductive IterExit where
  | exhausted
  | abandonedAfter (k : Nat)
  | stepErrorAt (j : Nat)

/-- Event trace of one iterdir_stat enumeration (src lines 113-147 and
194-213): when the native open fails nothing was acquired; otherwise the
handle is acquired, entries are yielded until exhaustion, abandonment or a
native error, and the finally block releases the handle on every one of
those exit paths. -/
def iterTrace (openOk : Bool) (entries : List String) (exit : IterExit) : List REvent :=
  match openOk with
  | false => []
  | true =>
    let yields :=
      match exit with
      | .exhausted => entries.map fun _ => REvent.yieldEntry
      | .abandonedAfter k => (entries.take k).map fun _ => REvent.yieldEntry
      | .stepErrorAt j => (entries.take j).map fun _ => REvent.yieldEntry
    REvent.acquire :: (yields ++ [REvent.release])

mutual
/-- Event trace of a walk (src lines 246-286) over the POSIX-style model:
each visited directory fully drains its listing (`list(iterdir_stat(top))`),
so the resource is acquired and released before anything is yielded for that
directory; then the record yields and recursive traces follow in the order
the generator produces them.  A failed open acquires nothing; a partition
error escapes after the listing was already released. -/
def walkTrace (ds : FSNode → Option Nat) (topdown followlinks : Bool) :
    FSNode → List REvent
  | .mk nm m cs =>
    match openError (.mk nm m cs) with
    | some _ => []
    | none =>
      match classifyList ds cs with
      | .error _ => [REvent.acquire, REvent.release]
      | .ok _ =>
        REvent.acquire :: REvent.release ::
          (if topdown then
            REvent.yieldRec :: walkTraceList ds topdown followlinks cs
          else
            walkTraceList ds topdown followlinks cs ++ [REvent.yieldRec])

def walkTraceList (ds : FSNode → Option Nat) (topdown followlinks : Bool) :
    List FSNode → List REvent
  | [] => []
  | c :: rest =>
    (match resolveSt ds c with
     | .error _ => []
     | .ok m =>
       if S_ISDIR m then
         if followlinks || !(S_ISLNK m) then walkTrace ds topdown followlinks c
         else []
       else []) ++ walkTraceList ds topdown followlinks rest
end

/-! A mutual induction principle for the nested tree type. -/

section Induction

variable {P : FSNode → Prop} {Q : List FSNode → Prop}

mutual
def fsNodeInd (h1 : ∀ nm m cs, Q cs → P (.mk nm m cs)) (h2 : Q [])
    (h3 : ∀ c rest, P c → Q rest → Q (c :: rest)) : ∀ n, P n
  | .mk nm m cs => h1 nm m cs (fsListInd h1 h2 h3 cs)

def fsListInd (h1 : ∀ nm m cs, Q cs → P (.mk nm m cs)) (h2 : Q [])
    (h3 : ∀ c rest, P c → Q rest → Q (c :: rest)) : ∀ cs, Q cs
  | [] => h2
  | c :: rest => h3 c rest (fsNodeInd h1 h2 h3 c) (fsListInd h1 h2 h3 rest)
end

end Induction

/-! Concrete trees used by the claims. -/

/-- The tree root/{a.txt, sub/{b.txt}} of the concrete scenario. -/
def scenarioTree : FSNode :=
  .mk "root" (.dir DT_DIR true)
    [.mk "a.txt" (.file DT_REG) [],
     .mk "sub" (.dir DT_DIR true) [.mk "b.txt" (.file DT_REG) []]]

/-- A Win32 directory holding "lnk", a symbolic link to a directory
(attributes carry the directory and reparse-point bits; the target holds one
entry "inner"), next to a regular file "f". -/
def winLinkTree : FSNode :=
  .mk "root" (.winEntry FILE_ATTRIBUTE_DIRECTORY)
    [.mk "lnk" (.winEntry (FILE_ATTRIBUTE_DIRECTORY ||| FILE_ATTRIBUTE_REPARSE_POINT))
       [.mk "inner" (.winEntry 0) []],
     .mk "f" (.winEntry 0) []]

/-- A directory whose subdirectory "d" sits on a filesystem that reports
d_type DT_UNKNOWN for it. -/
def unknownDTypeTree : FSNode :=
  .mk "root" (.dir DT_DIR true)
    [.mk "d" (.dir DT_UNKNOWN true) [.mk "x" (.file DT_REG) []]]

/-- A directory holding two entries whose kinds the enumerator reports as
unresolved: "u" is really a file, "v" really a directory; both fallback
stats succeed. -/
def unresolvedTree : FSNode :=
  .mk "root" (.dir DT_DIR true)
    [.mk "u" (.unknownEntry false true) [],
     .mk "v" (.unknownEntry true true) []]

/-- A directory holding a readable subdirectory "sib" and an entry "u" whose
type the enumerator left unresolved and whose fallback os.stat fails. -/
def failStatTree : FSNode :=
  .mk "root" (.dir DT_DIR true)
    [.mk "sib" (.dir DT_DIR true) [],
     .mk "u" (.unknownEntry true false) []]

/-- A Win32 directory "p" holding "lnk", an entry with the given attribute
word (a directory reparse point for the claim), whose target would list one
entry "inner". -/
def reparseTree (attributes : Nat) : FSNode :=
  .mk "p" (.dir DT_DIR true)
    [.mk "lnk" (.winEntry attributes) [.mk "inner" (.winEntry FILE_ATTRIBUTE_DIRECTORY) []]]

/-! Theorems for the claims settled by direct evaluation. -/

/-- C9: on the tree root/{a.txt, sub/{b.txt}}, walk(root) with topdown=true
yields exactly (root, ["sub"], ["a.txt"]) then (root/sub, [], ["b.txt"]), and
with topdown=false exactly the two records in the reverse order — settled on
both executable branches, the Win32 enumerator and the portable fallback.
(The POSIX branch cannot run the scenario at all: its readdir loop raises
NameError before yielding, see iterdir_stat_posix.) -/
theorem concrete_tree_walk_records :
    (walk win32_d_stat true false false ["root"] scenarioTree =
      .ok ⟨[(["root"], ["sub"], ["a.txt"]), (["root", "sub"], [], ["b.txt"])], []⟩ ∧
     walk win32_d_stat false false false ["root"] scenarioTree =
      .ok ⟨[(["root", "sub"], [], ["b.txt"]), (["root"], ["sub"], ["a.txt"])], []⟩) ∧
    (walk portable_d_stat true false false ["root"] scenarioTree =
      .ok ⟨[(["root"], ["sub"], ["a.txt"]), (["root", "sub"], [], ["b.txt"])], []⟩ ∧
     walk portable_d_stat false false false ["root"] scenarioTree =
      .ok ⟨[(["root", "sub"], [], ["b.txt"]), (["root"], ["sub"], ["a.txt"])], []⟩) :=
  ⟨⟨rfl, rfl⟩, ⟨rfl, rfl⟩⟩

/-- C5: the claim says a symlink to a directory is listed in the parent's
subdirectory-names and, with follow_links=true, walked into.  No branch of
the code does this.  On the executable Win32 branch, attributes_to_mode
merges the directory and reparse-point bits into a non-directory format, so
the link "lnk" is reported among the file-names and no record rooted at it is
produced, with either value of followlinks — walk's followlinks test never
fires.  On the POSIX branch the conversion type_to_stat likewise discards
DT_LNK to S_IFREG, and the frozen readdir loop raises NameError before
yielding anything at all.  Both contradict the walk docstring "Just like
os.walk()". -/
theorem symlink_dir_listed_as_file :
    type_to_stat DT_LNK = S_IFREG ∧
    walk win32_d_stat true false false ["root"] winLinkTree =
      .ok ⟨[(["root"], [], ["lnk", "f"])], []⟩ ∧
    walk win32_d_stat true true false ["root"] winLinkTree =
      .ok ⟨[(["root"], [], ["lnk", "f"])], []⟩ :=
  ⟨rfl, rfl, rfl⟩

/-- C6: the claim says an entry whose in-band type indicator is unresolvable
is emitted with kind unknown and resolved by the walker's single fallback
stat.  The POSIX conversion instead fabricates S_IFREG for every d_type
other than DT_DIR — type_to_stat DT_UNKNOWN is S_IFREG, a resolved wrong
kind, not unknown (first conjunct) — and beyond that the frozen POSIX
enumerator raises NameError before emitting any entry at all (second
conjunct).  The walker-side half of the claim is real code: fed entries
whose st_mode is None per iterdir_stat's documented contract, walk resolves
each with its single fallback stat, classifies "u" as a file and "v" as a
directory, recurses into "v", and no unknown kind reaches any record (third
conjunct). -/
theorem dt_unknown_reported_as_regular :
    type_to_stat DT_UNKNOWN = S_IFREG ∧
    iterdir_stat_posix (some unknownDTypeTree) =
      .error (.nameError "NameError: readdir_r is not defined") ∧
    walk doc_d_stat true false false ["root"] unresolvedTree =
      .ok ⟨[(["root"], ["v"], ["u"]), (["root", "v"], [], [])], []⟩ :=
  ⟨rfl, rfl, rfl⟩

/-- C7: the claim says the enumerator fails with distinct NotFound,
PermissionDenied and IOFailure errors.  The POSIX enumerator raises the same
undifferentiated OSError for a nonexistent directory (errno 2) and a
forbidden one (errno 13): only the message text differs and the exception's
errno attribute is unset in both, so no error class is distinguishable — the
'TODO' in the message is the source's own marker that this handling is a
placeholder. -/
theorem opendir_error_undifferentiated :
    iterdir_stat_posix none = .error (.osError none "TODO: opendir error: 2") ∧
    iterdir_stat_posix (some (.mk "locked" (.dir DT_DIR false) [])) =
      .error (.osError none "TODO: opendir error: 13") :=
  ⟨rfl, rfl⟩

/-- C8 counterexample: with an onerror callback supplied, a failing fallback
stat for the unresolved entry "u" is not routed to it — the error escapes
walk's try/except (which guards only the listing) and the whole walk raises,
yielding nothing even for the readable sibling "sib". -/
theorem fallback_stat_failure_raises :
    walk doc_d_stat true false true ["root"] failStatTree =
      .error (.osError (some 2) "os.stat failed") :=
  rfl

/-- C1 counterexample, on the executable Win32 branch: on a tree holding a
directory reparse point (a symlink to a directory), the set of non-directory
names walk collects differs from the reference name-list-plus-stat
traversal's: walk reports "lnk" among the file names (its merged
S_IFDIR|S_IFLNK mode is no directory format) while the reference, whose
per-name os.stat follows the link to the directory, does not. -/
theorem win32_walk_reference_nondir_sets_differ :
    ¬ (∀ x, x ∈ nondirNames (walk win32_d_stat true false false ["root"] winLinkTree) ↔
          x ∈ nondirNames (walk portable_d_stat true false false ["root"] winLinkTree)) := by
  intro h
  have h1 : "lnk" ∈ nondirNames (walk win32_d_stat true false false ["root"] winLinkTree) := by
    decide
  have h2 := (h "lnk").mp h1
  revert h2
  decide

/-- C10: on Windows, an entry whose attributes carry both the directory bit
and the reparse-point bit gets a mode whose format field is
S_IFDIR ||| S_IFLNK = 0o160000, which is neither the directory nor the
symlink format, so walk classifies it as a non-directory: its name appears in
the file-names of the parent's record and it is never recursed into, with
either value of followlinks. -/
theorem reparse_dir_classified_nondir (attributes : Nat) (topdown followlinks : Bool)
    (hdir : attributes &&& FILE_ATTRIBUTE_DIRECTORY ≠ 0)
    (hrep : attributes &&& FILE_ATTRIBUTE_REPARSE_POINT ≠ 0) :
    attributes_to_mode attributes &&& S_IFMT_MASK = 0o160000 ∧
    S_ISDIR (attributes_to_mode attributes) = false ∧
    S_ISLNK (attributes_to_mode attributes) = false ∧
    walk win32_d_stat topdown followlinks false ["p"] (reparseTree attributes) =
      .ok ⟨[(["p"], [], ["lnk"])], []⟩ := by
  have hmode : attributes_to_mode attributes = 0o160555 ∨
      attributes_to_mode attributes = 0o160777 := by
    unfold attributes_to_mode
    dsimp only
    by_cases hro : attributes &&& FILE_ATTRIBUTE_READONLY ≠ 0
    · left
      rw [if_pos hrep, if_pos hro, if_pos hdir]
      decide
    · right
      rw [if_pos hrep, if_neg hro, if_pos hdir]
      decide
  have key : ∀ md, attributes_to_mode attributes = md → S_ISDIR md = false →
      walk win32_d_stat topdown followlinks false ["p"] (reparseTree attributes) =
        .ok ⟨[(["p"], [], ["lnk"])], []⟩ := by
    intro md hmd hS
    have hres : resolveSt win32_d_stat
        (.mk "lnk" (.winEntry attributes) [.mk "inner" (.winEntry FILE_ATTRIBUTE_DIRECTORY) []]) =
          .ok md := by
      simp [resolveSt, win32_d_stat, FSNode.meta, hmd]
    cases topdown <;>
      simp [reparseTree, walk, walkList, classifyList, hres, hS, openError, FSNode.meta,
        FSNode.name]
  rcases hmode with h | h
  · exact ⟨by rw [h]; decide, by rw [h]; decide, by rw [h]; decide, key _ h (by decide)⟩
  · exact ⟨by rw [h]; decide, by rw [h]; decide, by rw [h]; decide, key _ h (by decide)⟩

/-! Behaviour of walk on plain trees, for any enumerator whose reported
modes correctly classify plain nodes. -/

/-- An enumerator-resolution function is good when, on every plain node, the
mode walk resolves for it succeeds, classifies directories exactly, and never
carries the symlink format.  Both executable enumerators — the Win32 one and
the portable fallback — satisfy this on plain trees. -/
def goodStat (ds : FSNode → Option Nat) : Prop :=
  ∀ c : FSNode, plain c = true →
    ∃ m, resolveSt ds c = .ok m ∧ S_ISDIR m = isDirNode c ∧ S_ISLNK m = false

theorem goodStat_win32 : goodStat win32_d_stat := by
  rintro ⟨nm, m, cs⟩ hc
  cases m with
  | file d =>
    exact ⟨attributes_to_mode 0, rfl,
      by show S_ISDIR (attributes_to_mode 0) = false; decide, by decide⟩
  | dir d r =>
    exact ⟨attributes_to_mode FILE_ATTRIBUTE_DIRECTORY, rfl,
      by show S_ISDIR (attributes_to_mode FILE_ATTRIBUTE_DIRECTORY) = true; decide,
      by decide⟩
  | linkDir => exact absurd hc (by simp [plain])
  | unknownEntry i s => exact absurd hc (by simp [plain])
  | winEntry a => exact absurd hc (by simp [plain])

theorem goodStat_portable : goodStat portable_d_stat := by
  rintro ⟨nm, m, cs⟩ hc
  cases m with
  | file d =>
    exact ⟨S_IFREG ||| 0o644, by simp [resolveSt, portable_d_stat, os_stat, FSNode.meta],
      by show S_ISDIR (S_IFREG ||| 0o644) = false; decide, by decide⟩
  | dir d r =>
    exact ⟨S_IFDIR ||| 0o755, by simp [resolveSt, portable_d_stat, os_stat, FSNode.meta],
      by show S_ISDIR (S_IFDIR ||| 0o755) = true; decide, by decide⟩
  | linkDir => exact absurd hc (by simp [plain])
  | unknownEntry i s => exact absurd hc (by simp [plain])
  | winEntry a => exact absurd hc (by simp [plain])

/-- On a plain listing, the partition step succeeds and produces exactly the
directory children (in order, with their resolved modes) and the
non-directory children (in order). -/
theorem classifyList_plain (ds : FSNode → Option Nat) (hds : goodStat ds) :
    ∀ cs, plainList cs = true →
      ∃ dirs, classifyList ds cs = .ok (dirs, fileChildNames cs) ∧
        dirs.map Prod.fst = dirChildNames cs := by
  intro cs
  induction cs with
  | nil => exact fun _ => ⟨[], by simp [classifyList, fileChildNames], by simp [dirChildNames]⟩
  | cons c rest ih =>
    intro hpl
    simp only [plainList, Bool.and_eq_true] at hpl
    obtain ⟨m, hres, hSd, _⟩ := hds c hpl.1
    obtain ⟨dirs, hcl, hnames⟩ := ih hpl.2
    by_cases hdir : isDirNode c = true
    · refine ⟨(c.name, m) :: dirs, ?_, ?_⟩
      · rw [hdir] at hSd
        simp [classifyList, hres, hcl, hSd, fileChildNames, hdir]
      · simp [hnames, dirChildNames, hdir]
    · have hdir' : isDirNode c = false := by
        cases h : isDirNode c
        · rfl
        · exact absurd h hdir
      rw [hdir'] at hSd
      refine ⟨dirs, ?_, ?_⟩
      · simp [classifyList, hres, hcl, hSd, fileChildNames, hdir']
      · simp [hnames, dirChildNames, hdir']

end BetterWalk

namespace BetterWalk

/-- Witness for C10 at the concrete attribute word 16 + 1024 = 1040. -/
theorem reparse_dir_classified_nondir_witness :
    (1040 &&& FILE_ATTRIBUTE_DIRECTORY ≠ 0) ∧ (1040 &&& FILE_ATTRIBUTE_REPARSE_POINT ≠ 0) ∧
    (attributes_to_mode 1040 &&& S_IFMT_MASK = 0o160000 ∧
     S_ISDIR (attributes_to_mode 1040) = false ∧
     S_ISLNK (attributes_to_mode 1040) = false ∧
     walk win32_d_stat true true false ["p"] (reparseTree 1040) =
       .ok ⟨[(["p"], [], ["lnk"])], []⟩) :=
  ⟨by decide, by decide, reparse_dir_classified_nondir 1040 true true (by decide) (by decide)⟩

/-- Node-side statement of walk's behaviour on plain trees: started on a
plain directory, walk never raises, yields exactly one record per directory
reachable through readable directories (in the traversal order selected by
topdown), and logs exactly the open failures of unreadable directories to
onerror when a callback is supplied. -/
def PlainP (ds : FSNode → Option Nat) (n : FSNode) : Prop :=
  plain n = true → isDirNode n = true → ∀ tb fl oe top,
    walk ds tb fl oe top n = .ok ⟨expRecords tb top n, if oe then expErrs top n else []⟩

/-- List-side statement of walk's behaviour on plain trees. -/
def PlainQ (ds : FSNode → Option Nat) (cs : List FSNode) : Prop :=
  plainList cs = true → ∀ tb fl oe top,
    walkList ds tb fl oe top cs =
      .ok ⟨expRecordsList tb top cs, if oe then expErrsList top cs else []⟩

theorem expRecords_nondir (tb : Bool) (top : List String) (c : FSNode)
    (h : isDirNode c = false) : expRecords tb top c = [] := by
  obtain ⟨nm, m, cs⟩ := c
  cases m <;> simp_all [expRecords, isDirNode, FSNode.meta]

theorem expErrs_nondir (top : List String) (c : FSNode)
    (h : isDirNode c = false) : expErrs top c = [] := by
  obtain ⟨nm, m, cs⟩ := c
  cases m <;> simp_all [expErrs, isDirNode, FSNode.meta]

theorem plainP_step (ds : FSNode → Option Nat) (hds : goodStat ds) :
    ∀ nm m cs, PlainQ ds cs → PlainP ds (.mk nm m cs) := by
  intro nm m cs hQ hplain hdir tb fl oe top
  cases m with
  | dir d r =>
    simp only [plain, Bool.and_eq_true] at hplain
    cases r with
    | false =>
      simp [walk, openError, FSNode.meta, expRecords, expErrs]
    | true =>
      obtain ⟨dirs, hcl, hnames⟩ := classifyList_plain ds hds cs hplain.2
      have hwl := hQ hplain.2 tb fl oe top
      cases tb with
      | true => simp [walk, openError, FSNode.meta, hcl, hwl, expRecords, expErrs, hnames]
      | false => simp [walk, openError, FSNode.meta, hcl, hwl, expRecords, expErrs, hnames]
  | file d => simp [isDirNode, FSNode.meta] at hdir
  | linkDir => simp [isDirNode, FSNode.meta] at hdir
  | unknownEntry i s => simp [isDirNode, FSNode.meta] at hdir
  | winEntry a => simp [isDirNode, FSNode.meta] at hdir

theorem plainQ_nil (ds : FSNode → Option Nat) : PlainQ ds [] := by
  intro _ tb fl oe top
  cases oe <;> simp [walkList, expRecordsList, expErrsList]

theorem plainQ_step (ds : FSNode → Option Nat) (hds : goodStat ds) :
    ∀ c rest, PlainP ds c → PlainQ ds rest → PlainQ ds (c :: rest) := by
  intro c rest hP hQ hpl tb fl oe top
  simp only [plainList, Bool.and_eq_true] at hpl
  obtain ⟨m, hres, hSd, hSl⟩ := hds c hpl.1
  have hrest := hQ hpl.2 tb fl oe top
  by_cases hdir : isDirNode c = true
  · rw [hdir] at hSd
    have hrec := hP hpl.1 hdir tb fl oe (top ++ [c.name])
    cases oe <;>
      simp [walkList, hres, hSd, hSl, hrec, hrest, expRecordsList, expErrsList]
  · have hdir' : isDirNode c = false := by
      cases h : isDirNode c
      · rfl
      · exact absurd h hdir
    rw [hdir'] at hSd
    cases oe <;>
      simp [walkList, hres, hSd, expRecordsList, expErrsList, hrest,
        expRecords_nondir _ _ _ hdir', expErrs_nondir _ _ hdir']

/-- walk on a plain tree, for any good enumerator: never raises, one record
per reachable readable directory, unreadable directories reported to onerror
and contributing nothing below. -/
theorem walk_plain (ds : FSNode → Option Nat) (hds : goodStat ds) : ∀ n, PlainP ds n :=
  fsNodeInd (plainP_step ds hds) (plainQ_nil ds) (plainQ_step ds hds)

mutual
/-- The paths of the unreadable directories reached through readable ones in
the subtree at `top` — exactly the directories whose open failure an onerror
callback is told about, independent of the platform-specific payload of the
raised error. -/
def expErrPaths (top : List String) : FSNode → List (List String)
  | .mk _ m cs =>
    match m with
    | .dir _ true => expErrPathsList top cs
    | .dir _ false => [top]
    | _ => []

def expErrPathsList (top : List String) : List FSNode → List (List String)
  | [] => []
  | c :: rest => expErrPaths (top ++ [c.name]) c ++ expErrPathsList top rest
end

/-- Node-side statement: the paths of the expected onerror log are the
expected unreadable-directory paths. -/
def ErrPathP (n : FSNode) : Prop :=
  ∀ top, (expErrs top n).map Prod.fst = expErrPaths top n

/-- List-side statement of the same. -/
def ErrPathQ (cs : List FSNode) : Prop :=
  ∀ top, (expErrsList top cs).map Prod.fst = expErrPathsList top cs

theorem errPathP_step : ∀ nm m cs, ErrPathQ cs → ErrPathP (.mk nm m cs) := by
  intro nm m cs hQ top
  cases m with
  | dir d r =>
    cases r
    · simp [expErrs, expErrPaths]
    · simpa [expErrs, expErrPaths] using hQ top
  | file d => simp [expErrs, expErrPaths]
  | linkDir => simp [expErrs, expErrPaths]
  | unknownEntry i s => simp [expErrs, expErrPaths]
  | winEntry a => simp [expErrs, expErrPaths]

theorem errPathQ_nil : ErrPathQ [] := by
  intro top
  simp [expErrsList, expErrPathsList]

theorem errPathQ_step : ∀ c rest, ErrPathP c → ErrPathQ rest → ErrPathQ (c :: rest) := by
  intro c rest hP hQ top
  simp [expErrsList, expErrPathsList, hP (top ++ [c.name]), hQ top]

theorem expErrs_fst : ∀ n, ErrPathP n :=
  fsNodeInd errPathP_step errPathQ_nil errPathQ_step

/-- C3: on any plain tree (in particular one with a single unreadable
subdirectory among readable siblings), walk on either executable branch —
the Win32 enumerator or the portable fallback — raises nothing: it returns
exactly one record per directory reachable through readable directories,
nothing for an unreadable directory or its subtree, and, when an onerror
callback is supplied, the callback is invoked exactly once per unreadable
directory reached, with that directory's open failure, while the traversal
of the remaining siblings continues.  (The POSIX branch is not covered: its
frozen readdir loop raises NameError for every readable directory, uncaught
by walk's except OSError — see iterdir_stat_posix.) -/
theorem walk_error_isolation (n : FSNode) (tb fl oe : Bool) (top : List String)
    (hplain : plain n = true) (hdir : isDirNode n = true) :
    (∃ o, walk win32_d_stat tb fl oe top n = .ok o ∧
      o.records = expRecords tb top n ∧
      o.errs.map Prod.fst = (if oe then expErrPaths top n else [])) ∧
    (∃ o, walk portable_d_stat tb fl oe top n = .ok o ∧
      o.records = expRecords tb top n ∧
      o.errs.map Prod.fst = (if oe then expErrPaths top n else [])) := by
  constructor
  · refine ⟨_, walk_plain win32_d_stat goodStat_win32 n hplain hdir tb fl oe top, rfl, ?_⟩
    cases oe
    · rfl
    · exact expErrs_fst n top
  · refine ⟨_, walk_plain portable_d_stat goodStat_portable n hplain hdir tb fl oe top,
      rfl, ?_⟩
    cases oe
    · rfl
    · exact expErrs_fst n top

/-- The error-isolation scenario: a readable root with a readable sibling
before and after one unreadable subdirectory that itself hides a subtree. -/
def errTree : FSNode :=
  .mk "root" (.dir DT_DIR true)
    [.mk "ok1" (.dir DT_DIR true) [.mk "f1" (.file DT_REG) []],
     .mk "bad" (.dir DT_DIR false) [.mk "hidden" (.dir DT_DIR true) []],
     .mk "ok2" (.dir DT_DIR true) []]

/-- Witness for C3 on the concrete scenario tree, with onerror supplied. -/
theorem walk_error_isolation_witness :
    plain errTree = true ∧ isDirNode errTree = true ∧
    (∃ o, walk win32_d_stat true false true ["root"] errTree = .ok o ∧
      o.records = expRecords true ["root"] errTree ∧
      o.errs.map Prod.fst = (if true then expErrPaths ["root"] errTree else [])) :=
  ⟨by decide, by decide,
   (walk_error_isolation errTree true false true ["root"] (by decide) (by decide)).1⟩

/-- C1 (amended): on the executable branches, for plain trees — no symbolic
links or reparse points, and in-band types that correctly distinguish
directories — walk over the Win32 enumerator produces exactly the records of
the reference name-list-plus-stat traversal (walk over the portable fallback
enumerator), hence equal non-directory and directory name collections.  The
counterexample above shows the unrestricted claim fails on a tree holding a
directory reparse point; the POSIX branch cannot enumerate at all (NameError,
see iterdir_stat_posix). -/
theorem win32_walk_eq_reference_on_plain_trees (n : FSNode) (tb fl oe : Bool)
    (top : List String) (hplain : plain n = true) (hdir : isDirNode n = true) :
    ∃ o1 o2, walk win32_d_stat tb fl oe top n = .ok o1 ∧
      walk portable_d_stat tb fl oe top n = .ok o2 ∧
      o1.records = o2.records ∧
      nondirNames (walk win32_d_stat tb fl oe top n) =
        nondirNames (walk portable_d_stat tb fl oe top n) ∧
      dirNames (walk win32_d_stat tb fl oe top n) =
        dirNames (walk portable_d_stat tb fl oe top n) := by
  have h1 := walk_plain win32_d_stat goodStat_win32 n hplain hdir tb fl oe top
  have h2 := walk_plain portable_d_stat goodStat_portable n hplain hdir tb fl oe top
  refine ⟨_, _, h1, h2, rfl, ?_, ?_⟩
  · rw [h1, h2]
  · rw [h1, h2]

/-- Witness for the amended C1 on the concrete two-level scenario tree. -/
theorem win32_walk_eq_reference_on_plain_trees_witness :
    plain scenarioTree = true ∧ isDirNode scenarioTree = true ∧
    nondirNames (walk win32_d_stat true false false ["root"] scenarioTree) =
      nondirNames (walk portable_d_stat true false false ["root"] scenarioTree) := by
  refine ⟨by decide, by decide, ?_⟩
  obtain ⟨o1, o2, -, -, -, h, -⟩ :=
    win32_walk_eq_reference_on_plain_trees scenarioTree true false false ["root"]
      (by decide) (by decide)
  exact h

/-! C8: behaviour of walk when the fallback stat of an unresolved entry
fails. -/

/-- An entry the enumerator reports with unresolved type and whose fallback
os.stat fails. -/
def failingUnknown (c : FSNode) : Bool :=
  match c.meta with
  | .unknownEntry _ false => true
  | _ => false

theorem resolveSt_doc_ok (c : FSNode) (h : failingUnknown c = false) :
    ∃ m, resolveSt doc_d_stat c = .ok m := by
  obtain ⟨nm, m, cs⟩ := c
  cases m with
  | unknownEntry i s =>
    cases s with
    | false => simp [failingUnknown, FSNode.meta] at h
    | true =>
      cases i <;> exact ⟨_, rfl⟩
  | file d => exact ⟨_, rfl⟩
  | dir d r => exact ⟨_, rfl⟩
  | linkDir => exact ⟨_, rfl⟩
  | winEntry a => exact ⟨_, rfl⟩

theorem classify_doc_error (cs : List FSNode)
    (h : ∃ c ∈ cs, failingUnknown c = true) :
    ∃ e, classifyList doc_d_stat cs = .error e := by
  induction cs with
  | nil => simp at h
  | cons c rest ih =>
    by_cases hc : failingUnknown c = true
    · have hres : resolveSt doc_d_stat c = .error (.osError (some 2) "os.stat failed") := by
        obtain ⟨nm, m, cs'⟩ := c
        cases m with
        | unknownEntry i s =>
          cases s
          · rfl
          · simp [failingUnknown, FSNode.meta] at hc
        | file d => simp [failingUnknown, FSNode.meta] at hc
        | dir d r => simp [failingUnknown, FSNode.meta] at hc
        | linkDir => simp [failingUnknown, FSNode.meta] at hc
        | winEntry a => simp [failingUnknown, FSNode.meta] at hc
      exact ⟨.osError (some 2) "os.stat failed", by simp [classifyList, hres]⟩
    · have hcf : failingUnknown c = false := by
        cases hh : failingUnknown c
        · rfl
        · exact absurd hh hc
      obtain ⟨m, hres⟩ := resolveSt_doc_ok c hcf
      have hrest : ∃ c' ∈ rest, failingUnknown c' = true := by
        obtain ⟨c', hmem, hf⟩ := h
        rw [List.mem_cons] at hmem
        rcases hmem with rfl | hmem
        · exact absurd hf hc
        · exact ⟨c', hmem, hf⟩
      obtain ⟨e, he⟩ := ih hrest
      exact ⟨e, by simp [classifyList, hres, he]⟩

/-- C8 (amended): when the single fallback metadata query for an entry of
unknown kind fails, the failure is not confined to that directory: it is not
routed to onerror even when a callback is supplied — the fallback stat sits
outside walk's try/except — and the error propagates out of the overall walk,
aborting the entire traversal. -/
theorem fallback_stat_failure_aborts_walk (nm : String) (d : Nat) (cs : List FSNode)
    (tb fl oe : Bool) (top : List String)
    (h : ∃ c ∈ cs, failingUnknown c = true) :
    ∃ e, walk doc_d_stat tb fl oe top (.mk nm (.dir d true) cs) = .error e := by
  obtain ⟨e, he⟩ := classify_doc_error cs h
  exact ⟨e, by simp [walk, openError, FSNode.meta, he]⟩

/-- Witness for the amended C8 on the concrete failing-stat tree. -/
theorem fallback_stat_failure_aborts_walk_witness :
    (∃ c ∈ [FSNode.mk "sib" (.dir DT_DIR true) [], FSNode.mk "u" (.unknownEntry true false) []],
      failingUnknown c = true) ∧
    ∃ e, walk doc_d_stat true false true ["root"] failStatTree = .error e :=
  ⟨by decide,
   fallback_stat_failure_aborts_walk "root" DT_DIR
     [FSNode.mk "sib" (.dir DT_DIR true) [], FSNode.mk "u" (.unknownEntry true false) []]
     true false true ["root"] (by decide)⟩

/-! Path-order toolbox for the traversal-order claim. -/

theorem pre_refl {α : Type} (p : List α) : Pre p p := ⟨[], by simp⟩

theorem pre_append_right {α : Type} (p r : List α) : Pre p (p ++ r) := ⟨r, rfl⟩

theorem pre_trans {α : Type} {p q r : List α} (h1 : Pre p q) (h2 : Pre q r) : Pre p r := by
  obtain ⟨a, rfl⟩ := h1
  obtain ⟨b, rfl⟩ := h2
  exact ⟨a ++ b, by simp⟩

theorem pre_length {α : Type} {p q : List α} (h : Pre p q) : p.length ≤ q.length := by
  obtain ⟨a, rfl⟩ := h
  simp

theorem pre_same_length_eq {α : Type} {p p' q : List α} (h : Pre p q) (h' : Pre p' q)
    (hl : p.length = p'.length) : p = p' := by
  obtain ⟨a, ha⟩ := h
  obtain ⟨b, hb⟩ := h'
  exact (List.append_inj (ha ▸ hb) hl).1

theorem pre_diverge {x : List String} {u v : String} {p q : List String}
    (hp : Pre (x ++ [u]) p) (hq : Pre (x ++ [v]) q) (huv : u ≠ v) : ¬ Pre p q := by
  intro hpq
  have h1 : Pre (x ++ [u]) q := pre_trans hp hpq
  have h2 : x ++ [u] = x ++ [v] := pre_same_length_eq h1 hq (by simp)
  exact huv (by simpa using h2)

theorem not_strictAnc_of_deeper {x : List String} {u : String} {p : List String}
    (hp : Pre (x ++ [u]) p) : ¬ StrictAnc p x := by
  rintro ⟨hpre, -⟩
  have h1 := pre_length hp
  have h2 := pre_length hpre
  simp at h1
  omega

theorem ancOrdered_of_diverge {x : List String} {u v : String}
    {a b : List String × List String × List String} (tb : Bool)
    (ha : Pre (x ++ [u]) a.1) (hb : Pre (x ++ [v]) b.1) (huv : u ≠ v) :
    ancOrdered tb a b := by
  have h1 : ¬ Pre a.1 b.1 := pre_diverge ha hb huv
  have h2 : ¬ Pre b.1 a.1 := pre_diverge hb ha (Ne.symm huv)
  cases tb with
  | true => exact fun hs => h2 hs.1
  | false => exact fun hs => h1 hs.1

/-- Decomposition of one step of walk's recursion loop: a successful
walkList over c :: rest is a (possibly empty) successful walk of c at the
joined path, followed by a successful walkList of the rest, with records and
onerror invocations concatenated. -/
theorem walkList_cons_ok (ds : FSNode → Option Nat) (tb fl oe : Bool) (top : List String)
    (c : FSNode) (rest : List FSNode) (o : WalkOut)
    (hw : walkList ds tb fl oe top (c :: rest) = .ok o) :
    ∃ o1 o2, (o1 = ⟨[], []⟩ ∨ walk ds tb fl oe (top ++ [c.name]) c = .ok o1) ∧
      walkList ds tb fl oe top rest = .ok o2 ∧
      o.records = o1.records ++ o2.records ∧ o.errs = o1.errs ++ o2.errs := by
  simp only [walkList] at hw
  cases hres : resolveSt ds c with
  | error e => rw [hres] at hw; simp at hw
  | ok m =>
    rw [hres] at hw
    dsimp only at hw
    by_cases hsd : S_ISDIR m = true
    · rw [if_pos hsd] at hw
      by_cases hfl : (fl || !(S_ISLNK m)) = true
      · rw [if_pos hfl] at hw
        cases hwc : walk ds tb fl oe (top ++ [c.name]) c with
        | error e => rw [hwc] at hw; simp at hw
        | ok o1 =>
          rw [hwc] at hw
          dsimp only at hw
          cases hwr : walkList ds tb fl oe top rest with
          | error e => rw [hwr] at hw; simp at hw
          | ok o2 =>
            rw [hwr] at hw
            dsimp only at hw
            cases hw
            exact ⟨o1, o2, .inr rfl, rfl, rfl, rfl⟩
      · rw [if_neg hfl] at hw
        dsimp only at hw
        cases hwr : walkList ds tb fl oe top rest with
        | error e => rw [hwr] at hw; simp at hw
        | ok o2 =>
          rw [hwr] at hw
          dsimp only at hw
          cases hw
          exact ⟨⟨[], []⟩, o2, .inl rfl, rfl, rfl, rfl⟩
    · rw [if_neg hsd] at hw
      dsimp only at hw
      cases hwr : walkList ds tb fl oe top rest with
      | error e => rw [hwr] at hw; simp at hw
      | ok o2 =>
        rw [hwr] at hw
        dsimp only at hw
        cases hw
        exact ⟨⟨[], []⟩, o2, .inl rfl, rfl, rfl, rfl⟩

/-- Node-side statement: every record a walk yields sits at or below the
starting path. -/
def SubP (ds : FSNode → Option Nat) (n : FSNode) : Prop :=
  ∀ tb fl oe top out, walk ds tb fl oe top n = .ok out →
    ∀ r ∈ out.records, Pre top r.1

/-- List-side statement: every record of the recursion loop sits below the
joined path of one of the children. -/
def SubQ (ds : FSNode → Option Nat) (cs : List FSNode) : Prop :=
  ∀ tb fl oe top o, walkList ds tb fl oe top cs = .ok o →
    ∀ r ∈ o.records, ∃ c ∈ cs, Pre (top ++ [c.name]) r.1

theorem subP_step (ds : FSNode → Option Nat) :
    ∀ nm m cs, SubQ ds cs → SubP ds (.mk nm m cs) := by
  intro nm m cs hQ tb fl oe top out hw r hr
  simp only [walk] at hw
  cases hop : openError (FSNode.mk nm m cs) with
  | some e =>
    rw [hop] at hw
    cases hw
    simp at hr
  | none =>
    rw [hop] at hw
    dsimp only at hw
    cases hcl : classifyList ds cs with
    | error e => rw [hcl] at hw; simp at hw
    | ok pr =>
      obtain ⟨dirs, nondirs⟩ := pr
      rw [hcl] at hw
      dsimp only at hw
      cases hwl : walkList ds tb fl oe top cs with
      | error e => rw [hwl] at hw; simp at hw
      | ok sub =>
        rw [hwl] at hw
        dsimp only at hw
        cases tb with
        | true =>
          rw [if_pos rfl] at hw
          cases hw
          rcases List.mem_cons.mp hr with rfl | hmem
          · exact pre_refl top
          · obtain ⟨c, -, hpre⟩ := hQ true fl oe top sub hwl r hmem
            exact pre_trans (pre_append_right top [c.name]) hpre
        | false =>
          rw [if_neg (by simp)] at hw
          cases hw
          rcases List.mem_append.mp hr with hmem | hmem
          · obtain ⟨c, -, hpre⟩ := hQ false fl oe top sub hwl r hmem
            exact pre_trans (pre_append_right top [c.name]) hpre
          · rcases List.mem_singleton.mp hmem with rfl
            exact pre_refl top

theorem subQ_nil (ds : FSNode → Option Nat) : SubQ ds [] := by
  intro tb fl oe top o hw r hr
  cases hw
  simp at hr

theorem subQ_step (ds : FSNode → Option Nat) :
    ∀ c rest, SubP ds c → SubQ ds rest → SubQ ds (c :: rest) := by
  intro c rest hP hQ tb fl oe top o hw r hr
  obtain ⟨o1, o2, h1, hwr, hrec, -⟩ := walkList_cons_ok ds tb fl oe top c rest o hw
  rw [hrec] at hr
  rcases List.mem_append.mp hr with hmem | hmem
  · rcases h1 with rfl | hwc
    · simp at hmem
    · exact ⟨c, List.mem_cons_self c rest, hP tb fl oe (top ++ [c.name]) o1 hwc r hmem⟩
  · obtain ⟨c', hc', hpre⟩ := hQ tb fl oe top o2 hwr r hmem
    exact ⟨c', List.mem_cons_of_mem c hc', hpre⟩

theorem walk_subP (ds : FSNode → Option Nat) : ∀ n, SubP ds n :=
  fsNodeInd (subP_step ds) (subQ_nil ds) (subQ_step ds)

theorem walkList_subQ (ds : FSNode → Option Nat) : ∀ cs, SubQ ds cs :=
  fsListInd (subP_step ds) (subQ_nil ds) (subQ_step ds)

/-- Node-side ordering statement: on a tree with distinct sibling names, the
records of a successful walk are pairwise ancestor-ordered according to
topdown. -/
def OrdP (ds : FSNode → Option Nat) (n : FSNode) : Prop :=
  wfNode n = true → ∀ tb fl oe top out, walk ds tb fl oe top n = .ok out →
    out.records.Pairwise (ancOrdered tb)

/-- List-side ordering statement. -/
def OrdQ (ds : FSNode → Option Nat) (cs : List FSNode) : Prop :=
  nodupNames cs = true → wfList cs = true →
    ∀ tb fl oe top o, walkList ds tb fl oe top cs = .ok o →
      o.records.Pairwise (ancOrdered tb)

theorem ordP_step (ds : FSNode → Option Nat) :
    ∀ nm m cs, OrdQ ds cs → OrdP ds (.mk nm m cs) := by
  intro nm m cs hQ hwf tb fl oe top out hw
  simp only [wfNode, Bool.and_eq_true] at hwf
  simp only [walk] at hw
  cases hop : openError (FSNode.mk nm m cs) with
  | some e =>
    rw [hop] at hw
    cases hw
    simp
  | none =>
    rw [hop] at hw
    dsimp only at hw
    cases hcl : classifyList ds cs with
    | error e => rw [hcl] at hw; simp at hw
    | ok pr =>
      obtain ⟨dirs, nondirs⟩ := pr
      rw [hcl] at hw
      dsimp only at hw
      cases hwl : walkList ds tb fl oe top cs with
      | error e => rw [hwl] at hw; simp at hw
      | ok sub =>
        rw [hwl] at hw
        dsimp only at hw
        have hsub := hQ hwf.1 hwf.2 tb fl oe top sub hwl
        cases tb with
        | true =>
          rw [if_pos rfl] at hw
          cases hw
          refine List.Pairwise.cons ?_ hsub
          intro r hr
          obtain ⟨c, -, hpre⟩ := walkList_subQ ds cs true fl oe top sub hwl r hr
          exact not_strictAnc_of_deeper hpre
        | false =>
          rw [if_neg (by simp)] at hw
          cases hw
          refine List.pairwise_append.mpr ⟨hsub, List.pairwise_singleton _ _, ?_⟩
          intro a ha b hb
          rcases List.mem_singleton.mp hb with rfl
          obtain ⟨c, -, hpre⟩ := walkList_subQ ds cs false fl oe top sub hwl a ha
          exact not_strictAnc_of_deeper hpre

theorem ordQ_nil (ds : FSNode → Option Nat) : OrdQ ds [] := by
  intro _ _ tb fl oe top o hw
  cases hw
  simp

theorem ordQ_step (ds : FSNode → Option Nat) :
    ∀ c rest, OrdP ds c → OrdQ ds rest → OrdQ ds (c :: rest) := by
  intro c rest hP hQ hnd hwl tb fl oe top o hw
  simp only [nodupNames, Bool.and_eq_true, Bool.not_eq_true'] at hnd
  simp only [wfList, Bool.and_eq_true] at hwl
  obtain ⟨o1, o2, h1, hwr, hrec, -⟩ := walkList_cons_ok ds tb fl oe top c rest o hw
  rw [hrec]
  refine List.pairwise_append.mpr ⟨?_, hQ hnd.2 hwl.2 tb fl oe top o2 hwr, ?_⟩
  · rcases h1 with rfl | hwc
    · simp
    · exact hP hwl.1 tb fl oe (top ++ [c.name]) o1 hwc
  · intro a ha b hb
    rcases h1 with rfl | hwc
    · simp at ha
    · have hpa := walk_subP ds c tb fl oe (top ++ [c.name]) o1 hwc a ha
      obtain ⟨c', hc', hpb⟩ := walkList_subQ ds rest tb fl oe top o2 hwr b hb
      have hne : c.name ≠ c'.name := by
        intro he
        have hni : c.name ∉ rest.map FSNode.name := by simpa using hnd.1
        exact hni (he ▸ List.mem_map_of_mem FSNode.name hc')
      exact ancOrdered_of_diverge tb hpa hpb hne

theorem walk_ordP (ds : FSNode → Option Nat) : ∀ n, OrdP ds n :=
  fsNodeInd (ordP_step ds) (ordQ_nil ds) (ordQ_step ds)

/-- C2: in the sequence of records a walk produces over a tree with distinct
sibling names, when topdown is true every directory's record strictly
precedes the records of all directories below it, and when topdown is false
it strictly follows them: the record list is pairwise ordered so that no
record is followed (topdown) or preceded (bottom-up) by the record of a
strict ancestor directory. -/
theorem walk_ancestor_order (ds : FSNode → Option Nat) (n : FSNode) (tb fl oe : Bool)
    (top : List String) (out : WalkOut)
    (hwf : wfNode n = true) (hw : walk ds tb fl oe top n = .ok out) :
    out.records.Pairwise (ancOrdered tb) :=
  walk_ordP ds n hwf tb fl oe top out hw

/-! C4: the native listing resource is released on every exit path. -/

/-- A trace is balanced when every acquired native listing resource has been
released. -/
def balanced (tr : List REvent) : Prop := countAcq tr = countRel tr

/-- A trace is suspension-balanced when it is balanced as a whole and every
prefix at which the producing generator is suspended (one ending at a
WalkRecord yield, where the consumer can abandon the walk) is balanced: no
native listing resource is open at any point the consumer observes. -/
def SuspBalanced (tr : List REvent) : Prop :=
  balanced tr ∧ ∀ p, Pre p tr → p.getLast? = some REvent.yieldRec → balanced p

theorem balanced_append {t1 t2 : List REvent} (h1 : balanced t1) (h2 : balanced t2) :
    balanced (t1 ++ t2) := by
  unfold balanced countAcq countRel at *
  simp [List.count_append, h1, h2]

theorem pre_cons_cases {α : Type} {p : List α} {x : α} {t : List α} (h : Pre p (x :: t)) :
    p = [] ∨ ∃ p', p = x :: p' ∧ Pre p' t := by
  obtain ⟨r, hr⟩ := h
  cases p with
  | nil => exact .inl rfl
  | cons y p' =>
    injection hr with h1 h2
    exact .inr ⟨p', by rw [h1], ⟨r, h2⟩⟩

theorem pre_append_cases {α : Type} {p b t : List α} (h : Pre p (b ++ t)) :
    Pre p b ∨ ∃ p', p = b ++ p' ∧ Pre p' t := by
  induction b generalizing p with
  | nil => exact .inr ⟨p, rfl, by simpa using h⟩
  | cons x b ih =>
    rcases pre_cons_cases h with rfl | ⟨p', rfl, hp'⟩
    · exact .inl ⟨x :: b, rfl⟩
    · rcases ih hp' with hb | ⟨p'', rfl, hp''⟩
      · obtain ⟨r, hr⟩ := hb
        exact .inl ⟨r, by simp [hr]⟩
      · exact .inr ⟨p'', rfl, hp''⟩

theorem suspBalanced_nil : SuspBalanced [] := by
  refine ⟨rfl, ?_⟩
  intro p hp hl
  obtain ⟨r, hr⟩ := hp
  have hp0 : p = [] := by
    cases p
    · rfl
    · simp at hr
  rw [hp0] at hl
  simp at hl

theorem suspBalanced_append {t1 t2 : List REvent} (h1 : SuspBalanced t1)
    (h2 : SuspBalanced t2) : SuspBalanced (t1 ++ t2) := by
  refine ⟨balanced_append h1.1 h2.1, ?_⟩
  intro p hp hl
  rcases pre_append_cases hp with hpb | ⟨p', rfl, hp'⟩
  · exact h1.2 p hpb hl
  · cases p' with
    | nil => simpa using h1.1
    | cons y q =>
      have hl' : (y :: q).getLast? = some REvent.yieldRec := by
        rw [List.getLast?_append_cons] at hl
        exact hl
      exact balanced_append h1.1 (h2.2 (y :: q) hp' hl')

theorem suspBalanced_acqrel (rest : List REvent) (h : SuspBalanced rest) :
    SuspBalanced (REvent.acquire :: REvent.release :: rest) := by
  constructor
  · have hb := h.1
    unfold balanced countAcq countRel at hb ⊢
    simp [List.count_cons]
    omega
  · intro p hp hl
    rcases pre_cons_cases hp with rfl | ⟨p1, rfl, hp1⟩
    · simp at hl
    · rcases pre_cons_cases hp1 with rfl | ⟨p2, rfl, hp2⟩
      · simp at hl
      · cases p2 with
        | nil => rfl
        | cons z q =>
          have hl2 : (z :: q).getLast? = some REvent.yieldRec := by
            rw [List.getLast?_cons_cons, List.getLast?_cons_cons] at hl
            exact hl
          have hb := h.2 (z :: q) hp2 hl2
          unfold balanced countAcq countRel at hb ⊢
          simp [List.count_cons] at hb ⊢
          omega

theorem suspBalanced_yieldRec_cons (rest : List REvent) (h : SuspBalanced rest) :
    SuspBalanced (REvent.yieldRec :: rest) := by
  constructor
  · have hb := h.1
    unfold balanced countAcq countRel at hb ⊢
    simp [List.count_cons] at hb ⊢
    omega
  · intro p hp hl
    rcases pre_cons_cases hp with rfl | ⟨p1, rfl, hp1⟩
    · simp at hl
    · cases p1 with
      | nil => rfl
      | cons z q =>
        have hl2 : (z :: q).getLast? = some REvent.yieldRec := by
          rw [List.getLast?_cons_cons] at hl
          exact hl
        have hb := h.2 (z :: q) hp1 hl2
        unfold balanced countAcq countRel at hb ⊢
        simp [List.count_cons] at hb ⊢
        omega

/-- Node-side statement: the instrumented trace of a walk is balanced at
every suspension point and at the end. -/
def RBalP (ds : FSNode → Option Nat) (n : FSNode) : Prop :=
  ∀ tb fl, SuspBalanced (walkTrace ds tb fl n)

/-- List-side statement for the recursion loop's trace. -/
def RBalQ (ds : FSNode → Option Nat) (cs : List FSNode) : Prop :=
  ∀ tb fl, SuspBalanced (walkTraceList ds tb fl cs)

theorem rBalP_step (ds : FSNode → Option Nat) :
    ∀ nm m cs, RBalQ ds cs → RBalP ds (.mk nm m cs) := by
  intro nm m cs hQ tb fl
  simp only [walkTrace]
  cases hop : openError (FSNode.mk nm m cs) with
  | some e => exact suspBalanced_nil
  | none =>
    cases hcl : classifyList ds cs with
    | error e => exact suspBalanced_acqrel [] suspBalanced_nil
    | ok pr =>
      cases tb with
      | true =>
        rw [if_pos rfl]
        exact suspBalanced_acqrel _ (suspBalanced_yieldRec_cons _ (hQ true fl))
      | false =>
        rw [if_neg (by simp)]
        exact suspBalanced_acqrel _
          (suspBalanced_append (hQ false fl)
            (suspBalanced_yieldRec_cons [] suspBalanced_nil))

theorem rBalQ_nil (ds : FSNode → Option Nat) : RBalQ ds [] := by
  intro tb fl
  exact suspBalanced_nil

theorem rBalQ_step (ds : FSNode → Option Nat) :
    ∀ c rest, RBalP ds c → RBalQ ds rest → RBalQ ds (c :: rest) := by
  intro c rest hP hQ tb fl
  simp only [walkTraceList]
  refine suspBalanced_append ?_ (hQ tb fl)
  cases hres : resolveSt ds c with
  | error e => exact suspBalanced_nil
  | ok m =>
    dsimp only
    by_cases hsd : S_ISDIR m = true
    · rw [if_pos hsd]
      by_cases hfl : (fl || !(S_ISLNK m)) = true
      · rw [if_pos hfl]
        exact hP tb fl
      · rw [if_neg hfl]
        exact suspBalanced_nil
    · rw [if_neg hsd]
      exact suspBalanced_nil

theorem walk_rBalP (ds : FSNode → Option Nat) : ∀ n, RBalP ds n :=
  fsNodeInd (rBalP_step ds) (rBalQ_nil ds) (rBalQ_step ds)

/-- C4: the native listing resource is released on every exit path of every
enumeration — normal exhaustion, early abandonment by the consumer, and a
native error during iteration (first part, over the enumeration trace with
every possible exit) — and after a walk sequence is exhausted, or abandoned
at any suspension point, the count of acquired native listing resources
equals the count of released ones: zero remain open (second part, over every
prefix of the instrumented walk trace ending at a record yield or at the
end). -/
theorem resource_release_balanced :
    (∀ openOk entries exit,
      countAcq (iterTrace openOk entries exit) = countRel (iterTrace openOk entries exit)) ∧
    (∀ tb fl n p, Pre p (walkTrace posix_d_stat tb fl n) →
      (p = walkTrace posix_d_stat tb fl n ∨ p.getLast? = some REvent.yieldRec) →
      countAcq p = countRel p) := by
  constructor
  · intro openOk entries exit
    cases openOk with
    | false => rfl
    | true =>
      have hy : ∀ l : List String,
          ∀ e : REvent, e ≠ REvent.yieldEntry →
            (l.map fun _ => REvent.yieldEntry).count e = 0 := by
        intro l e he
        rw [List.count_eq_zero]
        intro hm
        obtain ⟨-, -, hx⟩ := List.mem_map.mp hm
        exact he hx.symm
      have key : ∀ ys : List String,
          countAcq (REvent.acquire :: ((ys.map fun _ => REvent.yieldEntry) ++ [REvent.release])) =
            countRel (REvent.acquire :: ((ys.map fun _ => REvent.yieldEntry) ++ [REvent.release])) := by
        intro ys
        unfold countAcq countRel
        simp only [List.count_cons, List.count_append]
        rw [hy ys REvent.acquire (by decide), hy ys REvent.release (by decide)]
        decide
      cases exit with
      | exhausted => exact key entries
      | abandonedAfter k => exact key (entries.take k)
      | stepErrorAt j => exact key (entries.take j)
  · intro tb fl n p hp hcase
    have hsb : SuspBalanced (walkTrace posix_d_stat tb fl n) := walk_rBalP posix_d_stat n tb fl
    rcases hcase with rfl | hl
    · exact hsb.1
    · exact hsb.2 p hp hl

/-- Witness for C4: the enumerator trace of a two-entry listing abandoned
after one entry, and the prefix of the instrumented scenario-tree walk trace
ending at its first record yield. -/
theorem resource_release_balanced_witness :
    countAcq (iterTrace true ["a", "b"] (.abandonedAfter 1)) =
      countRel (iterTrace true ["a", "b"] (.abandonedAfter 1)) ∧
    Pre [REvent.acquire, REvent.release, REvent.yieldRec]
      (walkTrace posix_d_stat true false scenarioTree) ∧
    countAcq [REvent.acquire, REvent.release, REvent.yieldRec] =
      countRel [REvent.acquire, REvent.release, REvent.yieldRec] :=
  ⟨resource_release_balanced.1 true ["a", "b"] (.abandonedAfter 1),
   ⟨[REvent.acquire, REvent.release, REvent.yieldRec], rfl⟩,
   resource_release_balanced.2 true false scenarioTree
     [REvent.acquire, REvent.release, REvent.yieldRec]
     ⟨[REvent.acquire, REvent.release, REvent.yieldRec], rfl⟩ (.inr rfl)⟩

/-- Witness for C2 on the concrete two-level scenario tree, bottom-up. -/
theorem walk_ancestor_order_witness :
    wfNode scenarioTree = true ∧
    walk posix_d_stat false false false ["root"] scenarioTree =
      .ok ⟨[(["root", "sub"], [], ["b.txt"]), (["root"], ["sub"], ["a.txt"])], []⟩ ∧
    List.Pairwise (ancOrdered false)
      [(["root", "sub"], [], ["b.txt"]), (["root"], ["sub"], ["a.txt"])] :=
  ⟨by decide, rfl,
   walk_ancestor_order posix_d_stat scenarioTree false false false ["root"]
     ⟨[(["root", "sub"], [], ["b.txt"]), (["root"], ["sub"], ["a.txt"])], []⟩
     (by decide) rfl⟩

end BetterWalk
